import Mathlib

/-!
Verification of the mini-rx-store state engine.

Shallow embedding of the repository's store core:
- `combineReducers` from src/unnamed/part_002 (the NgRx-derived reducer composition).
- The store-core module state of src/unnamed/part_001 (`initStore`, `configureStore`,
  `addFeature`, `removeFeature`, `addExtension`) and the `configureStore` wrapper of
  src/libs/mini-rx-store/src/lib/store.ts.
- `addExtension` of src/libs/signal-store/src/lib/store-core.ts (the sibling variant).
- Components that live in `@mini-rx/common` or signal-store files absent from src/
  (action queue, effects error handler, selector engine, extension sort) are modelled
  from the spec; each such definition says so in its doc comment.

JavaScript reference equality of slice states is modelled as equality on the slice
value type: a reference is just a value (e.g. an allocation id), and two references
are the same object exactly when they are equal. `undefined` is `Option.none`.
-/

namespace MiniRxStore

/-- A slice reducer `(previousSliceState, action) -> nextSliceState`. The previous
slice state may be `undefined` (`none`) when the snapshot has no entry for the key,
as in `state[key]` of src/unnamed/part_002 line 43; a typed reducer always returns a
defined slice state. -/
abbrev Rd (σ α : Type) := Option σ → α → σ

/-- A state snapshot: a JavaScript object mapping slice keys to slice states, embedded
as an association list in key insertion order (the order `Object.keys` reports). -/
abbrev Snapshot (σ : Type) := List (String × σ)

/-- The `ReducerDictionary`: registered slice keys with their reducers, in
registration order. -/
abbrev ReducerDict (σ α : Type) := List (String × Rd σ α)

/-- `combineReducers` from src/unnamed/part_002 lines 30-51. For each registered key
the slice reducer is applied to `state[key]` (possibly `undefined`) and the action;
`hasChanged` starts as the comparison of the key counts (`Object.keys(state).length
!== reducerKeyLength`, line 37) and becomes true when some slice result is not
reference-equal to its previous value (`nextStateForKey !== previousStateForKey`,
line 47). If nothing changed the very same `state` object is returned, else the
freshly built `nextState`. -/
def combineReducers {σ α : Type} [DecidableEq σ] (reducers : ReducerDict σ α)
    (state : Snapshot σ) (action : α) : Snapshot σ :=
  let nextState : Snapshot σ :=
    reducers.map (fun kr => (kr.1, kr.2 (state.lookup kr.1) action))
  let hasChanged : Bool :=
    decide (state.length ≠ reducers.length) ||
      reducers.any (fun kr =>
        decide (some (kr.2 (state.lookup kr.1) action) ≠ state.lookup kr.1))
  if hasChanged then nextState else state

/-- Modelled from the spec: `createActionsOnQueue` lives in `@mini-rx/common`, not in
src/. Per spec section 4.1 and the design note in section 9, the action queue is an
explicit FIFO buffer drained by a re-entry-guarded loop: a `dispatch` that happens
while the loop is draining only enqueues at the back. `buffer` is the pending FIFO
buffer and `processed` the actions already fully processed, oldest first. -/
structure QueueState (α : Type) where
  buffer : List α
  processed : List α
deriving DecidableEq

/-- Modelled from the spec: `dispatch(action)` enqueues at the back of the FIFO
buffer and returns immediately; it never processes anything itself. -/
def dispatchOnQueue {α : Type} (a : α) (s : QueueState α) : QueueState α :=
  { s with buffer := s.buffer ++ [a] }

/-- Modelled from the spec: one turn of the drain loop. The head action of the
buffer is processed atomically: its full reduction and all synchronous listener
notifications run to completion, and every action those synchronously dispatch
(given by `children`) is appended at the back of the buffer, never processed
inline. -/
def drainStep {α : Type} (children : α → List α) (s : QueueState α) : QueueState α :=
  match s.buffer with
  | [] => s
  | a :: rest => { buffer := rest ++ children a, processed := s.processed ++ [a] }

/-- `n` turns of the drain loop. -/
def drainSteps {α : Type} (children : α → List α) : Nat → QueueState α → QueueState α
  | 0, s => s
  | n + 1, s => drainSteps children n (drainStep children s)

/-- The module state of the store-core module (src/unnamed/part_001):
`actionSubscription` presence (`initialized`), how many times the actions stream was
subscribed by `initStore` (`subCount`, for the duplicate-subscription claim), the
reducer manager's feature reducers, and the app state snapshot. Meta-reducers and
extension meta-reducers are elided: none of the claims below depends on them. -/
structure Core (σ α : Type) where
  initialized : Bool
  subCount : Nat
  featureReducers : ReducerDict σ α
  snapshot : Snapshot σ

/-- The store-core module state at process start: no action subscription, no feature
reducers, empty snapshot (`appState.get() ?? {}`). -/
def coreFresh {σ α : Type} : Core σ α := ⟨false, 0, [], []⟩

/-- `initStore` from src/unnamed/part_001 lines 45-55: if the action subscription
already exists it returns at once, otherwise it subscribes the state-update listener
to the actions stream (exactly one new subscription). -/
def initStore {σ α : Type} (s : Core σ α) : Core σ α :=
  if s.initialized then s
  else { s with initialized := true, subCount := s.subCount + 1 }

/-- Delivering one dispatched action to the actions stream: every live state-update
subscription (there are `subCount` of them) runs the listener body of `initStore`,
replacing the snapshot with the combined reducer's result. With no subscription the
dispatch reaches no listener and the snapshot is untouched (the dispatch is lost for
state purposes). -/
def applyAction {σ α : Type} [DecidableEq σ] (s : Core σ α) (a : α) : Core σ α :=
  { s with snapshot := (fun st => combineReducers s.featureReducers st a)^[s.subCount] s.snapshot }

/-- `StoreConfig`: the parts of the configuration object that reach the reducer
manager and the app state. Meta-reducers and extensions are handled separately. -/
structure StoreCfg (σ α : Type) where
  reducers : ReducerDict σ α
  initialState : Option (Snapshot σ)

/-- `configureStore` from src/unnamed/part_001 lines 57-83 (the store-core level
function). It first runs `initStore`; if the reducer manager already has feature
reducers it throws `miniRxError` and nothing further happens; otherwise it installs
the configured reducers, overwrites the snapshot with the configured initial state
when one is given, and dispatches the global init action `gInit`. The returned
`Except` is the thrown-or-returned outcome, paired with the module state after the
call. -/
def configureStoreCore {σ α : Type} [DecidableEq σ] (gInit : α) (cfg : StoreCfg σ α)
    (s : Core σ α) : Core σ α × Except String Unit :=
  let s1 := initStore s
  if s1.featureReducers.isEmpty then
    let s2 := { s1 with featureReducers := cfg.reducers }
    let s3 := { s2 with snapshot := cfg.initialState.getD s2.snapshot }
    (applyAction s3 gInit, Except.ok ())
  else
    (s1, Except.error "`configureStore` detected reducers. Did you instantiate FeatureStores before calling `configureStore`?")

/-- `addFeature` from src/unnamed/part_001 lines 85-101. It first runs `initStore`
(lazy self-initialization), then registers the feature reducer with the reducer
manager, then dispatches the init action `initA featureKey` for that slice. The
duplicate-key check is the reducer manager's (`addFeatureReducer` lives in
`@mini-rx/common`; per spec section 4.2 a duplicate key fails fast before any state
change or dispatch). -/
def addFeature {σ α : Type} [DecidableEq σ] (initA : String → α) (featureKey : String)
    (reducer : Rd σ α) (s : Core σ α) : Core σ α × Except String Unit :=
  let s1 := initStore s
  if featureKey ∈ s1.featureReducers.map Prod.fst then
    (s1, Except.error ("@mini-rx: A reducer for the feature key already exists: " ++ featureKey))
  else
    let s2 := { s1 with featureReducers := s1.featureReducers ++ [(featureKey, reducer)] }
    (applyAction s2 (initA featureKey), Except.ok ())

/-- The two externally observable events of `removeFeature`, in the order they
happen: the removal of the registration record from the reducer manager, and the
dispatch of the slice-destroyed action. -/
inductive RemoveEvent (α : Type) where
  | removedRecord (featureKey : String)
  | dispatched (a : α)
deriving DecidableEq

/-- `removeFeature` from src/unnamed/part_001 lines 103-106. Line 104 removes the
feature reducer from the reducer manager; line 105 then dispatches the destroy
action `destroyA featureKey`. The second component records the two events in the
order the code performs them. -/
def removeFeature {σ α : Type} [DecidableEq σ] (destroyA : String → α)
    (featureKey : String) (s : Core σ α) : Core σ α × List (RemoveEvent α) :=
  let s1 := { s with featureReducers := s.featureReducers.filter (fun kr => kr.1 != featureKey) }
  (applyAction s1 (destroyA featureKey),
    [RemoveEvent.removedRecord featureKey, RemoveEvent.dispatched (destroyA featureKey)])

/-- One interleaved operation against the store core: a `configureStore` call, a
feature registration, a feature teardown, or a plain dispatch. -/
inductive CoreOp (σ α : Type) where
  | configure (cfg : StoreCfg σ α)
  | register (featureKey : String) (reducer : Rd σ α)
  | teardown (featureKey : String)
  | dispatch (a : α)

/-- Run one operation, keeping the module state (a thrown configuration error leaves
the state the call had mutated so far, exactly as a JavaScript exception would). -/
def runOp {σ α : Type} [DecidableEq σ] (gInit : α) (initA destroyA : String → α)
    (s : Core σ α) : CoreOp σ α → Core σ α
  | CoreOp.configure cfg => (configureStoreCore gInit cfg s).1
  | CoreOp.register k r => (addFeature initA k r s).1
  | CoreOp.teardown k => (removeFeature destroyA k s).1
  | CoreOp.dispatch a => applyAction s a

/-- Run a sequence of interleaved operations from a starting module state. -/
def runOps {σ α : Type} [DecidableEq σ] (gInit : α) (initA destroyA : String → α)
    (ops : List (CoreOp σ α)) (s : Core σ α) : Core σ α :=
  ops.foldl (runOp gInit initA destroyA) s

/-- A well-formed configuration object: JavaScript object literals cannot repeat a
key, so the configured reducer dictionary and initial state have unique keys. -/
def StoreCfg.WF {σ α : Type} (cfg : StoreCfg σ α) : Prop :=
  (cfg.reducers.map Prod.fst).Nodup ∧
    ∀ st, cfg.initialState = some st → (st.map Prod.fst).Nodup

/-- Well-formedness of one operation (only configuration objects carry data that
must be well-formed). -/
def CoreOp.WF {σ α : Type} : CoreOp σ α → Prop
  | CoreOp.configure cfg => cfg.WF
  | _ => True

/-- The store-core invariant: the actions stream has exactly one state-update
subscription once initialized and none before; registered keys and snapshot keys
are duplicate-free; the snapshot's key set equals the registered key set; and
before initialization nothing is registered and the snapshot is empty. -/
def CoreInv {σ α : Type} (s : Core σ α) : Prop :=
  s.subCount = (if s.initialized then 1 else 0) ∧
  (s.featureReducers.map Prod.fst).Nodup ∧
  (s.snapshot.map Prod.fst).Nodup ∧
  (∀ k, k ∈ s.snapshot.map Prod.fst ↔ k ∈ s.featureReducers.map Prod.fst) ∧
  (s.initialized = false → s.featureReducers = [] ∧ s.snapshot = [])

/-- The module state of src/libs/mini-rx-store/src/lib/store.ts: the store-core
state plus the `isStoreConfigured` guard (line 31). -/
structure TopState (σ α : Type) where
  core : Core σ α
  isStoreConfigured : Bool

/-- The store.ts module state at process start. -/
def topFresh {σ α : Type} : TopState σ α := ⟨coreFresh, false⟩

/-- `configureStore` from src/libs/mini-rx-store/src/lib/store.ts lines 33-46: if
the store is not yet configured it delegates to the store-core `configureStore`,
sets `isStoreConfigured` and returns the store handle (modelled as `Except.ok ()`;
the handle's bound functions carry no state of their own); if the delegate throws,
the exception propagates and `isStoreConfigured` stays false. A second call reaches
`miniRxError` and changes nothing. -/
def configureStore {σ α : Type} [DecidableEq σ] (gInit : α) (cfg : StoreCfg σ α)
    (t : TopState σ α) : TopState σ α × Except String Unit :=
  if t.isStoreConfigured then
    (t, Except.error "`configureStore` was called multiple times.")
  else
    match configureStoreCore gInit cfg t.core with
    | (c, Except.ok _) => (⟨c, true⟩, Except.ok ())
    | (c, Except.error e) => (⟨c, false⟩, Except.error e)

/-- The enumerated extension kinds (`ExtensionId` of `@mini-rx/common`). -/
inductive ExtensionId where
  | logger
  | immutableState
  | undo
  | reduxDevTools
deriving DecidableEq

/-- `addExtension` of src/unnamed/part_001 lines 125-133, restricted to its effect
on the `hasUndoExtension` flag (line 132): the flag is assigned
`extension.id === ExtensionId.UNDO` on every installation, so each installation
overwrites the previous value. `init()` and `addMetaReducers` are elided: they never
touch the flag. -/
def addExtensionMini (_hasUndo : Bool) (ext : ExtensionId) : Bool :=
  ext == ExtensionId.undo

/-- `addExtension` of src/libs/signal-store/src/lib/store-core.ts lines 125-135,
restricted to its effect on `hasUndoExtension` (lines 132-134): the flag is set to
true when an undo extension is installed and is otherwise left alone. -/
def addExtensionSignal (hasUndo : Bool) (ext : ExtensionId) : Bool :=
  if ext == ExtensionId.undo then true else hasUndo

/-- The `hasUndoExtension` flag after installing a sequence of extensions through
the part_001 `addExtension` (the flag starts false, line 25). -/
def runExtensionsMini (exts : List ExtensionId) : Bool :=
  exts.foldl addExtensionMini false

/-- The `hasUndoExtension` flag after installing a sequence of extensions through
the signal-store `addExtension` (the flag starts false, line 25). -/
def runExtensionsSignal (exts : List ExtensionId) : Bool :=
  exts.foldl addExtensionSignal false

/-- Modelled from the spec: the fixed priority table used by `sortExtensions`
(`@mini-rx/common`, not in src/). Spec section 4.3 fixes only the relative order
needed here: undo-capture sorts ahead of immutability-enforcement so that undo
observes state before it is frozen. -/
def extensionSortOrder : ExtensionId → Nat
  | ExtensionId.logger => 0
  | ExtensionId.undo => 1
  | ExtensionId.immutableState => 2
  | ExtensionId.reduxDevTools => 3

/-- Modelled from the spec: `sortExtensions` (`@mini-rx/common`, not in src/)
re-sorts the configured extensions by the fixed priority table before installation,
independent of call-site order. -/
def sortExtensions (exts : List ExtensionId) : List ExtensionId :=
  exts.insertionSort (fun a b => extensionSortOrder a ≤ extensionSortOrder b)

/-- One event of an effect's upstream stream: an emission (an action to dispatch)
or an unhandled upstream failure. -/
inductive EffectEvent (α : Type) where
  | emit (a : α)
  | fail
deriving DecidableEq

/-- Modelled from the spec: `defaultEffectsErrorHandler` lives in `@mini-rx/common`,
not in src/. Per spec section 4.5, an unhandled upstream failure is caught at the
effect boundary and is a terminal condition for that effect's subscription only:
the actions forwarded to `dispatch` by the `effect` subscriber of src/unnamed/
part_001 lines 108-123 are exactly the emissions before the first failure. -/
def effectOutput {α : Type} : List (EffectEvent α) → List α
  | [] => []
  | EffectEvent.emit a :: rest => a :: effectOutput rest
  | EffectEvent.fail :: _ => []

/-- All actions dispatched by a family of registered effects, each isolated behind
its own error boundary, in registration order. -/
def allEffectDispatches {α : Type} (effects : List (List (EffectEvent α))) : List α :=
  (effects.map effectOutput).flatten

/-- The outcome of invoking a selector node: the returned value, the node's
single-slot cache afterwards, and how many times the combiner and the upstream
source selectors were invoked during this call. -/
structure SelectorResult (St A R : Type) where
  result : R
  cache : Option (St × List A × R)
  combinerCalls : Nat
  sourceCalls : Nat
deriving DecidableEq

/-- Modelled from the spec: `createSelector` lives in signal-selector.ts, which is
not under src/ (src/ holds only its memoization test in component-store.spec.ts
lines 123-154). Per spec sections 3 and 4.4 a selector node holds its source
selectors, its combiner and a single-slot cache of the last (state, source outputs,
result). Invocation: with the same state reference as cached, the cached result is
returned with neither the sources nor the combiner re-invoked; otherwise the
sources are re-invoked, and if every source output is reference-equal to the cached
inputs the cached result is returned without the combiner, else the combiner runs
on the fresh inputs and the cache is replaced. -/
def invokeSelector {St A R : Type} [DecidableEq St] [DecidableEq A]
    (sources : List (St → A)) (combiner : List A → R)
    (cache : Option (St × List A × R)) (st : St) : SelectorResult St A R :=
  match cache with
  | some (s0, args0, r0) =>
    if st = s0 then ⟨r0, some (s0, args0, r0), 0, 0⟩
    else
      let args := sources.map (fun src => src st)
      if args = args0 then ⟨r0, some (st, args, r0), 0, sources.length⟩
      else ⟨combiner args, some (st, args, combiner args), 1, sources.length⟩
  | none =>
      let args := sources.map (fun src => src st)
      ⟨combiner args, some (st, args, combiner args), 1, sources.length⟩

/-- A concrete slice reducer used by concrete instantiations below. -/
def r0 : Rd Nat String := fun s _ => s.getD 0

/-- A concrete slice-initialized action namer (spec section 6 naming convention). -/
def initA0 : String → String := fun k => "@mini-rx/" ++ k ++ "/init"

/-- A concrete slice-destroyed action namer (spec section 6 naming convention). -/
def destroyA0 : String → String := fun k => "@mini-rx/" ++ k ++ "/destroy"

/-- A concrete live store with one registered slice, for concrete instantiations. -/
def coreC5 : Core Nat String := ⟨true, 1, [("k", r0)], [("k", 5)]⟩

/-- A concrete interleaved operation sequence: register, dispatch, teardown. -/
def opsC3 : List (CoreOp Nat String) :=
  [CoreOp.register "a" r0, CoreOp.dispatch "x", CoreOp.teardown "a"]

/-- A concrete operation sequence registering twice and configuring once. -/
def opsC10 : List (CoreOp Nat String) :=
  [CoreOp.register "a" r0, CoreOp.register "b" r0, CoreOp.configure (StoreCfg.mk [] none)]

/-- Dispatching a sequence of actions one after another enqueues them at the back
of the buffer in dispatch order. -/
theorem dispatch_foldl {α : Type} (q b p : List α) :
    q.foldl (fun s a => dispatchOnQueue a s) ⟨b, p⟩ = ⟨b ++ q, p⟩ := by
  induction q generalizing b with
  | nil => simp
  | cons a q ih =>
    rw [List.foldl_cons]
    have h : dispatchOnQueue a (⟨b, p⟩ : QueueState α) = ⟨b ++ [a], p⟩ := rfl
    rw [h, ih]
    simp

/-- Draining as many turns as the buffer holds actions processes exactly those
actions, in buffer order, and leaves behind (in front of any tail `t`) the actions
they synchronously dispatched, grouped by parent in processing order. -/
theorem drainSteps_spec {α : Type} (children : α → List α) (q t p : List α) :
    drainSteps children q.length ⟨q ++ t, p⟩ =
      ⟨t ++ (q.map children).flatten, p ++ q⟩ := by
  induction q generalizing t p with
  | nil => simp [drainSteps]
  | cons a q ih =>
    simp only [List.length_cons, drainSteps, drainStep, List.cons_append]
    rw [List.append_assoc q t (children a), ih]
    simp

/-- C1: every action dispatched while the queue drains is processed in strict FIFO
dispatch order and none is dropped. After dispatching the sequence `q` into an idle
queue and draining `q.length` turns, the processed sequence is exactly `q` — so any
action `B` synchronously dispatched while processing some `A ∈ q` (an element of
`children A`) is not processed until `A`'s full processing turn and all
previously-dispatched actions are done: every such `B` is still in the buffer, in
FIFO order of its dispatch. Draining further processes exactly those re-entrant
dispatches, again in order and without loss. -/
theorem actionQueue_fifo_no_drop {α : Type} (children : α → List α) (q : List α) :
    drainSteps children q.length (q.foldl (fun s a => dispatchOnQueue a s) ⟨[], []⟩)
        = ⟨(q.map children).flatten, q⟩ ∧
    drainSteps children ((q.map children).flatten).length
        (drainSteps children q.length (q.foldl (fun s a => dispatchOnQueue a s) ⟨[], []⟩))
        = ⟨(((q.map children).flatten).map children).flatten,
            q ++ (q.map children).flatten⟩ := by
  have h0 : q.foldl (fun s a => dispatchOnQueue a s) (⟨[], []⟩ : QueueState α) = ⟨q, []⟩ := by
    rw [dispatch_foldl]
    simp
  have h1 := drainSteps_spec children q [] []
  have h2 := drainSteps_spec children ((q.map children).flatten) [] q
  constructor
  · rw [h0]
    simpa using h1
  · rw [h0]
    have h1' : drainSteps children q.length (⟨q, []⟩ : QueueState α)
        = ⟨(q.map children).flatten, q⟩ := by simpa using h1
    rw [h1']
    simpa using h2

/-- `state[key]` is `undefined` exactly when the key is absent. -/
theorem lookup_eq_none_iff {β : Type} (l : List (String × β)) (k : String) :
    l.lookup k = none ↔ k ∉ l.map Prod.fst := by
  induction l with
  | nil => simp [List.lookup]
  | cons kv l ih =>
    by_cases h : k = kv.1
    · subst h
      simp [List.lookup]
    · have hb : (k == kv.1) = false := by simp [h]
      simp [List.lookup, hb, ih, h]

/-- A present key has a defined value. -/
theorem lookup_isSome_of_mem {β : Type} {l : List (String × β)} {k : String}
    (h : k ∈ l.map Prod.fst) : ∃ v, l.lookup k = some v := by
  cases ho : l.lookup k with
  | some v => exact ⟨v, rfl⟩
  | none => exact absurd h ((lookup_eq_none_iff l k).mp ho)

/-- A defined value means the key is present. -/
theorem mem_of_lookup_eq_some {β : Type} {l : List (String × β)} {k : String} {v : β}
    (h : l.lookup k = some v) : k ∈ l.map Prod.fst := by
  by_contra hk
  rw [(lookup_eq_none_iff l k).mpr hk] at h
  exact Option.noConfusion h

/-- Duplicate-free lists with the same members have the same length. -/
theorem length_eq_of_nodup_mem_iff {l1 l2 : List String} (h1 : l1.Nodup) (h2 : l2.Nodup)
    (h : ∀ k, k ∈ l1 ↔ k ∈ l2) : l1.length = l2.length := by
  rw [← List.toFinset_card_of_nodup h1, ← List.toFinset_card_of_nodup h2]
  congr 1
  ext a
  simp only [List.mem_toFinset]
  exact h a

/-- A duplicate-free list containing a duplicate-free list of at least its own
length has exactly the same members. -/
theorem mem_iff_of_subset_of_length_le {l1 l2 : List String} (h1 : l1.Nodup) (h2 : l2.Nodup)
    (hsub : ∀ k, k ∈ l1 → k ∈ l2) (hlen : l2.length ≤ l1.length) :
    ∀ k, k ∈ l1 ↔ k ∈ l2 := by
  have hs : l1.toFinset ⊆ l2.toFinset := by
    intro a ha
    rw [List.mem_toFinset] at ha ⊢
    exact hsub a ha
  have hc : l2.toFinset.card ≤ l1.toFinset.card := by
    rw [List.toFinset_card_of_nodup h1, List.toFinset_card_of_nodup h2]
    exact hlen
  have he : l1.toFinset = l2.toFinset := Finset.eq_of_subset_of_card_le hs hc
  intro k
  rw [← List.mem_toFinset, ← List.mem_toFinset, he]

/-- The freshly built `nextState` carries exactly the registered keys, in
registration order. -/
theorem combineReducers_next_keys {σ α : Type} (R : ReducerDict σ α) (st : Snapshot σ)
    (a : α) :
    (R.map (fun kr => (kr.1, kr.2 (st.lookup kr.1) a))).map Prod.fst = R.map Prod.fst := by
  rw [List.map_map]
  rfl

/-- `combineReducers` either returns the very same snapshot or the freshly built
`nextState`. -/
theorem combineReducers_eq_or {σ α : Type} [DecidableEq σ] (R : ReducerDict σ α)
    (st : Snapshot σ) (a : α) :
    combineReducers R st a = st ∨
      combineReducers R st a = R.map (fun kr => (kr.1, kr.2 (st.lookup kr.1) a)) := by
  by_cases h : (decide (st.length ≠ R.length) ||
      R.any (fun kr => decide (some (kr.2 (st.lookup kr.1) a) ≠ st.lookup kr.1))) = true
  · right
    simp only [combineReducers, h, if_true]
  · left
    simp only [combineReducers]
    rw [if_neg h]

/-- After one application of `combineReducers` the snapshot's keys are
duplicate-free and are exactly the registered keys, whatever snapshot it was
applied to. -/
theorem combineReducers_post_keys {σ α : Type} [DecidableEq σ] (R : ReducerDict σ α)
    (st : Snapshot σ) (a : α) (hR : (R.map Prod.fst).Nodup)
    (hst : (st.map Prod.fst).Nodup) :
    ((combineReducers R st a).map Prod.fst).Nodup ∧
      ∀ k, k ∈ (combineReducers R st a).map Prod.fst ↔ k ∈ R.map Prod.fst := by
  by_cases h : (decide (st.length ≠ R.length) ||
      R.any (fun kr => decide (some (kr.2 (st.lookup kr.1) a) ≠ st.lookup kr.1))) = true
  · have he : combineReducers R st a = R.map (fun kr => (kr.1, kr.2 (st.lookup kr.1) a)) := by
      simp only [combineReducers, h, if_true]
    rw [he, combineReducers_next_keys]
    exact ⟨hR, fun k => Iff.rfl⟩
  · have he : combineReducers R st a = st := by
      simp only [combineReducers]
      rw [if_neg h]
    rw [he]
    refine ⟨hst, ?_⟩
    rw [Bool.or_eq_true, not_or] at h
    obtain ⟨hlen, hany⟩ := h
    have hlen : st.length = R.length := by
      by_contra hne
      exact hlen (by simpa using hne)
    have hall : ∀ kr ∈ R, st.lookup kr.1 = some (kr.2 (st.lookup kr.1) a) := by
      intro kr hkr
      by_contra hne
      apply hany
      rw [List.any_eq_true]
      refine ⟨kr, hkr, ?_⟩
      simp only [decide_eq_true_eq]
      exact fun hcontra => hne hcontra.symm
    have hsub : ∀ k, k ∈ R.map Prod.fst → k ∈ st.map Prod.fst := by
      intro k hk
      rw [List.mem_map] at hk
      obtain ⟨kr, hkr, hfst⟩ := hk
      subst hfst
      exact mem_of_lookup_eq_some (hall kr hkr)
    have hlen2 : (st.map Prod.fst).length ≤ (R.map Prod.fst).length := by
      simpa using Nat.le_of_eq hlen
    have hiff := mem_iff_of_subset_of_length_le hR hst hsub hlen2
    intro k
    exact (hiff k).symm

/-- C2: the combined reducer's cheap no-op detection. If every slice reducer
returns a value reference-equal to its previous slice state and the registered
key set equals the snapshot's key set, the very same snapshot `st` is returned;
otherwise the freshly built mapping holding every registered key's reducer result
is returned. Key lists are duplicate-free because JavaScript objects cannot repeat
keys. -/
theorem combineReducers_noop_detection {σ α : Type} [DecidableEq σ]
    (R : ReducerDict σ α) (st : Snapshot σ) (a : α)
    (hR : (R.map Prod.fst).Nodup) (hst : (st.map Prod.fst).Nodup) :
    (((∀ kr ∈ R, st.lookup kr.1 = some (kr.2 (st.lookup kr.1) a)) ∧
        (∀ k, k ∈ st.map Prod.fst ↔ k ∈ R.map Prod.fst)) →
      combineReducers R st a = st) ∧
    ((¬ ((∀ kr ∈ R, st.lookup kr.1 = some (kr.2 (st.lookup kr.1) a)) ∧
        (∀ k, k ∈ st.map Prod.fst ↔ k ∈ R.map Prod.fst))) →
      combineReducers R st a = R.map (fun kr => (kr.1, kr.2 (st.lookup kr.1) a))) := by
  constructor
  · rintro ⟨hunch, hkeys⟩
    have hlen : st.length = R.length := by
      have := length_eq_of_nodup_mem_iff hst hR hkeys
      simpa using this
    have hcond : (decide (st.length ≠ R.length) ||
        R.any (fun kr => decide (some (kr.2 (st.lookup kr.1) a) ≠ st.lookup kr.1))) = false := by
      rw [Bool.or_eq_false_iff]
      constructor
      · simp [hlen]
      · rw [List.any_eq_false]
        intro kr hkr
        simp only [decide_eq_true_eq, not_not]
        exact (hunch kr hkr).symm
    simp only [combineReducers, hcond, Bool.false_eq_true, if_false]
  · intro hno
    by_cases hA : ∀ kr ∈ R, st.lookup kr.1 = some (kr.2 (st.lookup kr.1) a)
    · have hB : ¬ (∀ k, k ∈ st.map Prod.fst ↔ k ∈ R.map Prod.fst) := by
        intro hB
        exact hno ⟨hA, hB⟩
      have hlen : st.length ≠ R.length := by
        intro hlen
        apply hB
        have hsub : ∀ k, k ∈ R.map Prod.fst → k ∈ st.map Prod.fst := by
          intro k hk
          rw [List.mem_map] at hk
          obtain ⟨kr, hkr, hfst⟩ := hk
          subst hfst
          exact mem_of_lookup_eq_some (hA kr hkr)
        have hlen2 : (st.map Prod.fst).length ≤ (R.map Prod.fst).length := by
          simpa using Nat.le_of_eq hlen
        intro k
        exact (mem_iff_of_subset_of_length_le hR hst hsub hlen2 k).symm
      have hcond : (decide (st.length ≠ R.length) ||
          R.any (fun kr => decide (some (kr.2 (st.lookup kr.1) a) ≠ st.lookup kr.1))) = true := by
        rw [Bool.or_eq_true]
        left
        simpa using hlen
      simp only [combineReducers, hcond, if_true]
    · push_neg at hA
      obtain ⟨kr, hkr, hne⟩ := hA
      have hcond : (decide (st.length ≠ R.length) ||
          R.any (fun kr => decide (some (kr.2 (st.lookup kr.1) a) ≠ st.lookup kr.1))) = true := by
        rw [Bool.or_eq_true]
        right
        rw [List.any_eq_true]
        refine ⟨kr, hkr, ?_⟩
        simp only [decide_eq_true_eq]
        exact fun hcontra => hne hcontra.symm
      simp only [combineReducers, hcond, if_true]

/-- Witness for C2 at a concrete input: one registered slice whose reducer returns
its previous state unchanged, so the very same snapshot comes back. -/
theorem combineReducers_noop_detection_witness :
    combineReducers [("a", fun (s : Option Nat) (_ : String) => s.getD 0)]
        [("a", 5)] "act" = [("a", 5)] := by
  have h := combineReducers_noop_detection
      [("a", fun (s : Option Nat) (_ : String) => s.getD 0)] [("a", 5)] "act"
      (by simp) (by simp)
  apply h.1
  constructor
  · intro kr hkr
    rw [List.mem_singleton] at hkr
    subst hkr
    rfl
  · intro k
    simp

/-- `initStore` never touches the reducer manager. -/
theorem initStore_featureReducers {σ α : Type} (s : Core σ α) :
    (initStore s).featureReducers = s.featureReducers := by
  unfold initStore
  split <;> rfl

/-- `initStore` never touches the snapshot. -/
theorem initStore_snapshot {σ α : Type} (s : Core σ α) :
    (initStore s).snapshot = s.snapshot := by
  unfold initStore
  split <;> rfl

/-- After `initStore` the action subscription exists. -/
theorem initStore_initialized {σ α : Type} (s : Core σ α) :
    (initStore s).initialized = true := by
  unfold initStore
  split
  · assumption
  · rfl

/-- Delivering an action leaves every module field but the snapshot alone. -/
theorem applyAction_fields {σ α : Type} [DecidableEq σ] (s : Core σ α) (a : α) :
    (applyAction s a).featureReducers = s.featureReducers ∧
      (applyAction s a).initialized = s.initialized ∧
      (applyAction s a).subCount = s.subCount :=
  ⟨rfl, rfl, rfl⟩

/-- With no subscription a dispatch does not change the snapshot. -/
theorem applyAction_snapshot_zero {σ α : Type} [DecidableEq σ] (s : Core σ α) (a : α)
    (h : s.subCount = 0) : (applyAction s a).snapshot = s.snapshot := by
  simp [applyAction, h]

/-- With exactly one subscription a dispatch applies the combined reducer exactly
once. -/
theorem applyAction_snapshot_one {σ α : Type} [DecidableEq σ] (s : Core σ α) (a : α)
    (h : s.subCount = 1) :
    (applyAction s a).snapshot = combineReducers s.featureReducers s.snapshot a := by
  simp [applyAction, h]

/-- The fresh store-core module state satisfies the invariant. -/
theorem coreInv_fresh {σ α : Type} : CoreInv (coreFresh : Core σ α) := by
  refine ⟨rfl, ?_, ?_, ?_, ?_⟩ <;> simp [coreFresh]

/-- `initStore` preserves the store-core invariant. -/
theorem coreInv_initStore {σ α : Type} {s : Core σ α} (h : CoreInv s) :
    CoreInv (initStore s) := by
  obtain ⟨h1, h2, h3, h4, h5⟩ := h
  unfold initStore
  by_cases hi : s.initialized = true
  · rw [if_pos hi]
    exact ⟨h1, h2, h3, h4, h5⟩
  · rw [if_neg hi]
    have h0 : s.subCount = 0 := by
      rw [h1, if_neg hi]
    refine ⟨by simp [h0], h2, h3, h4, ?_⟩
    intro hfalse
    simp at hfalse

/-- Dispatching preserves the store-core invariant. -/
theorem coreInv_applyAction {σ α : Type} [DecidableEq σ] {s : Core σ α} (a : α)
    (h : CoreInv s) : CoreInv (applyAction s a) := by
  obtain ⟨h1, h2, h3, h4, h5⟩ := h
  by_cases hi : s.initialized = true
  · have hsc : s.subCount = 1 := by rw [h1, if_pos hi]
    have hsnap := applyAction_snapshot_one s a hsc
    have hpost := combineReducers_post_keys s.featureReducers s.snapshot a h2 h3
    refine ⟨h1, h2, ?_, ?_, ?_⟩
    · rw [hsnap]
      exact hpost.1
    · intro k
      rw [hsnap]
      exact hpost.2 k
    · intro hfalse
      rw [show (applyAction s a).initialized = s.initialized from rfl] at hfalse
      rw [hfalse] at hi
      exact Bool.noConfusion hi
  · have hsc : s.subCount = 0 := by rw [h1, if_neg hi]
    have hsnap := applyAction_snapshot_zero s a hsc
    refine ⟨h1, h2, ?_, ?_, ?_⟩
    · rw [hsnap]
      exact h3
    · intro k
      rw [hsnap]
      exact h4 k
    · intro hfalse
      rw [hsnap]
      exact h5 hfalse

/-- Feature registration preserves the store-core invariant: a duplicate key fails
fast; a fresh key is appended and the slice-initialized dispatch rebuilds the
snapshot over the extended reducer dictionary. -/
theorem coreInv_addFeature {σ α : Type} [DecidableEq σ] (initA : String → α)
    (k : String) (r : Rd σ α) {s : Core σ α} (h : CoreInv s) :
    CoreInv (addFeature initA k r s).1 := by
  have hinv1 := coreInv_initStore h
  obtain ⟨h1, h2, h3, h4, h5⟩ := hinv1
  by_cases hk : k ∈ (initStore s).featureReducers.map Prod.fst
  · have he : (addFeature initA k r s).1 = initStore s := by
      simp only [addFeature]
      rw [if_pos hk]
    rw [he]
    exact ⟨h1, h2, h3, h4, h5⟩
  · have he : (addFeature initA k r s).1 =
        applyAction
          { initStore s with
            featureReducers := (initStore s).featureReducers ++ [(k, r)] }
          (initA k) := by
      simp only [addFeature]
      rw [if_neg hk]
    rw [he]
    have hR2 : ((((initStore s).featureReducers ++ [(k, r)]).map Prod.fst)).Nodup := by
      rw [List.map_append]
      simp only [List.map_cons, List.map_nil]
      rw [List.nodup_append]
      refine ⟨h2, List.nodup_singleton k, ?_⟩
      intro x hx hxk
      rw [List.mem_singleton] at hxk
      subst hxk
      exact hk hx
    have hsc : ({ initStore s with
        featureReducers := (initStore s).featureReducers ++ [(k, r)] } : Core σ α).subCount = 1 := by
      show (initStore s).subCount = 1
      rw [h1, if_pos (initStore_initialized s)]
    have hsnap := applyAction_snapshot_one
      { initStore s with featureReducers := (initStore s).featureReducers ++ [(k, r)] }
      (initA k) hsc
    have hpost := combineReducers_post_keys
      ((initStore s).featureReducers ++ [(k, r)]) (initStore s).snapshot (initA k) hR2 h3
    refine ⟨?_, hR2, ?_, ?_, ?_⟩
    · show (initStore s).subCount = _
      rw [show (applyAction { initStore s with
          featureReducers := (initStore s).featureReducers ++ [(k, r)] }
          (initA k)).initialized = (initStore s).initialized from rfl]
      rw [h1]
    · rw [hsnap]
      exact hpost.1
    · intro k2
      rw [hsnap]
      exact hpost.2 k2
    · intro hfalse
      rw [show (applyAction { initStore s with
          featureReducers := (initStore s).featureReducers ++ [(k, r)] }
          (initA k)).initialized = (initStore s).initialized from rfl] at hfalse
      rw [initStore_initialized s] at hfalse
      exact Bool.noConfusion hfalse

/-- Feature teardown preserves the store-core invariant: the record is filtered
out and the slice-destroyed dispatch rebuilds the snapshot over the reduced
reducer dictionary. -/
theorem coreInv_removeFeature {σ α : Type} [DecidableEq σ] (destroyA : String → α)
    (k : String) {s : Core σ α} (h : CoreInv s) :
    CoreInv (removeFeature destroyA k s).1 := by
  obtain ⟨h1, h2, h3, h4, h5⟩ := h
  have hR1 : ((s.featureReducers.filter (fun kr => kr.1 != k)).map Prod.fst).Nodup :=
    List.Sublist.nodup (List.Sublist.map Prod.fst (List.filter_sublist s.featureReducers)) h2
  have he : (removeFeature destroyA k s).1 =
      applyAction
        { s with featureReducers := s.featureReducers.filter (fun kr => kr.1 != k) }
        (destroyA k) := rfl
  rw [he]
  by_cases hi : s.initialized = true
  · have hsc : ({ s with
        featureReducers := s.featureReducers.filter (fun kr => kr.1 != k) } : Core σ α).subCount = 1 := by
      show s.subCount = 1
      rw [h1, if_pos hi]
    have hsnap := applyAction_snapshot_one
      { s with featureReducers := s.featureReducers.filter (fun kr => kr.1 != k) }
      (destroyA k) hsc
    have hpost := combineReducers_post_keys
      (s.featureReducers.filter (fun kr => kr.1 != k)) s.snapshot (destroyA k) hR1 h3
    refine ⟨?_, hR1, ?_, ?_, ?_⟩
    · show s.subCount = _
      rw [show (applyAction { s with
          featureReducers := s.featureReducers.filter (fun kr => kr.1 != k) }
          (destroyA k)).initialized = s.initialized from rfl]
      exact h1
    · rw [hsnap]
      exact hpost.1
    · intro k2
      rw [hsnap]
      exact hpost.2 k2
    · intro hfalse
      rw [show (applyAction { s with
          featureReducers := s.featureReducers.filter (fun kr => kr.1 != k) }
          (destroyA k)).initialized = s.initialized from rfl] at hfalse
      rw [hfalse] at hi
      exact Bool.noConfusion hi
  · have hi2 : s.initialized = false := by
      cases hb : s.initialized
      · rfl
      · exact absurd hb hi
    obtain ⟨hr0, hs0⟩ := h5 hi2
    have hsc : ({ s with
        featureReducers := s.featureReducers.filter (fun kr => kr.1 != k) } : Core σ α).subCount = 0 := by
      show s.subCount = 0
      rw [h1, if_neg hi]
    have hsnap := applyAction_snapshot_zero
      { s with featureReducers := s.featureReducers.filter (fun kr => kr.1 != k) }
      (destroyA k) hsc
    refine ⟨?_, hR1, ?_, ?_, ?_⟩
    · show s.subCount = _
      rw [show (applyAction { s with
          featureReducers := s.featureReducers.filter (fun kr => kr.1 != k) }
          (destroyA k)).initialized = s.initialized from rfl]
      exact h1
    · rw [hsnap]
      exact h3
    · intro k2
      rw [hsnap]
      show k2 ∈ s.snapshot.map Prod.fst ↔ _
      rw [hr0, hs0]
      exact Iff.rfl
    · intro _
      rw [hsnap]
      refine ⟨?_, hs0⟩
      rw [hr0]
      rfl

/-- `configureStore` at the store-core level preserves the invariant for a
well-formed configuration object. -/
theorem coreInv_configureStoreCore {σ α : Type} [DecidableEq σ] (gInit : α)
    (cfg : StoreCfg σ α) {s : Core σ α} (h : CoreInv s) (hcfg : cfg.WF) :
    CoreInv (configureStoreCore gInit cfg s).1 := by
  have hinv1 := coreInv_initStore h
  obtain ⟨h1, h2, h3, h4, h5⟩ := hinv1
  by_cases he : (initStore s).featureReducers.isEmpty
  · have heq : (configureStoreCore gInit cfg s).1 =
        applyAction
          { initStore s with
            featureReducers := cfg.reducers,
            snapshot := cfg.initialState.getD (initStore s).snapshot }
          gInit := by
      simp only [configureStoreCore]
      rw [if_pos he]
    rw [heq]
    have hsnap0 : ((cfg.initialState.getD (initStore s).snapshot).map Prod.fst).Nodup := by
      cases hcs : cfg.initialState with
      | none =>
        simpa using h3
      | some st0 =>
        simpa using hcfg.2 st0 hcs
    have hsc : ({ initStore s with
        featureReducers := cfg.reducers,
        snapshot := cfg.initialState.getD (initStore s).snapshot } : Core σ α).subCount = 1 := by
      show (initStore s).subCount = 1
      rw [h1, if_pos (initStore_initialized s)]
    have hsnap := applyAction_snapshot_one
      { initStore s with
        featureReducers := cfg.reducers,
        snapshot := cfg.initialState.getD (initStore s).snapshot } gInit hsc
    have hpost := combineReducers_post_keys cfg.reducers
      (cfg.initialState.getD (initStore s).snapshot) gInit hcfg.1 hsnap0
    refine ⟨?_, hcfg.1, ?_, ?_, ?_⟩
    · show (initStore s).subCount = _
      rw [show (applyAction { initStore s with
          featureReducers := cfg.reducers,
          snapshot := cfg.initialState.getD (initStore s).snapshot }
          gInit).initialized = (initStore s).initialized from rfl]
      exact h1
    · rw [hsnap]
      exact hpost.1
    · intro k2
      rw [hsnap]
      exact hpost.2 k2
    · intro hfalse
      rw [show (applyAction { initStore s with
          featureReducers := cfg.reducers,
          snapshot := cfg.initialState.getD (initStore s).snapshot }
          gInit).initialized = (initStore s).initialized from rfl] at hfalse
      rw [initStore_initialized s] at hfalse
      exact Bool.noConfusion hfalse
  · have heq : (configureStoreCore gInit cfg s).1 = initStore s := by
      simp only [configureStoreCore]
      rw [if_neg he]
    rw [heq]
    exact ⟨h1, h2, h3, h4, h5⟩

/-- Every interleaved operation preserves the store-core invariant. -/
theorem coreInv_runOp {σ α : Type} [DecidableEq σ] (gInit : α)
    (initA destroyA : String → α) {s : Core σ α} (op : CoreOp σ α)
    (h : CoreInv s) (hop : op.WF) :
    CoreInv (runOp gInit initA destroyA s op) := by
  cases op with
  | configure cfg => exact coreInv_configureStoreCore gInit cfg h hop
  | register k r => exact coreInv_addFeature initA k r h
  | teardown k => exact coreInv_removeFeature destroyA k h
  | dispatch a => exact coreInv_applyAction a h

/-- The invariant holds after any sequence of interleaved operations. -/
theorem coreInv_runOps {σ α : Type} [DecidableEq σ] (gInit : α)
    (initA destroyA : String → α) (ops : List (CoreOp σ α)) {s : Core σ α}
    (h : CoreInv s) (hops : ∀ op ∈ ops, op.WF) :
    CoreInv (runOps gInit initA destroyA ops s) := by
  induction ops generalizing s with
  | nil => exact h
  | cons op ops ih =>
    exact ih
      (coreInv_runOp gInit initA destroyA op h (hops op (List.mem_cons_self op ops)))
      (fun o ho => hops o (List.mem_cons_of_mem op ho))

/-- C3: for every sequence of dispatched actions interleaved with slice
registrations and teardowns, run from the fresh store, the snapshot's key set
equals the set of currently registered slice keys — no orphaned or missing keys —
and both key lists are duplicate-free, so a key is added exactly once when its
slice is registered and removed exactly once when the slice is torn down. -/
theorem snapshot_keys_eq_registered {σ α : Type} [DecidableEq σ] (gInit : α)
    (initA destroyA : String → α) (ops : List (CoreOp σ α))
    (hops : ∀ op ∈ ops, op.WF) :
    (∀ k, k ∈ (runOps gInit initA destroyA ops coreFresh).snapshot.map Prod.fst ↔
        k ∈ (runOps gInit initA destroyA ops coreFresh).featureReducers.map Prod.fst) ∧
    ((runOps gInit initA destroyA ops coreFresh).snapshot.map Prod.fst).Nodup ∧
    ((runOps gInit initA destroyA ops coreFresh).featureReducers.map Prod.fst).Nodup := by
  have h := coreInv_runOps gInit initA destroyA ops coreInv_fresh hops
  exact ⟨h.2.2.2.1, h.2.2.1, h.2.1⟩

/-- Witness for C3 at a concrete run: register a slice, dispatch, tear it down. -/
theorem snapshot_keys_eq_registered_witness :
    (∀ op ∈ opsC3, op.WF) ∧
    ((∀ k, k ∈ (runOps "g" initA0 destroyA0 opsC3 coreFresh).snapshot.map Prod.fst ↔
        k ∈ (runOps "g" initA0 destroyA0 opsC3 coreFresh).featureReducers.map Prod.fst) ∧
    ((runOps "g" initA0 destroyA0 opsC3 coreFresh).snapshot.map Prod.fst).Nodup ∧
    ((runOps "g" initA0 destroyA0 opsC3 coreFresh).featureReducers.map Prod.fst).Nodup) := by
  have hops : ∀ op ∈ opsC3, op.WF := by
    intro op hop
    fin_cases hop <;> trivial
  exact ⟨hops, snapshot_keys_eq_registered "g" initA0 destroyA0 opsC3 hops⟩

/-- C10: within one store lifetime the state-update subscription is created at
most once, however often `configureStore` or feature registration ran; once the
store is initialized there is exactly one subscription, so a dispatched action is
applied to the state by exactly one combined-reducer application — never reduced
twice by duplicate subscriptions. -/
theorem state_subscription_at_most_once {σ α : Type} [DecidableEq σ] (gInit : α)
    (initA destroyA : String → α) (ops : List (CoreOp σ α))
    (hops : ∀ op ∈ ops, op.WF) :
    (runOps gInit initA destroyA ops coreFresh).subCount ≤ 1 ∧
    ((runOps gInit initA destroyA ops coreFresh).initialized = true →
      (runOps gInit initA destroyA ops coreFresh).subCount = 1 ∧
      ∀ a, (applyAction (runOps gInit initA destroyA ops coreFresh) a).snapshot =
        combineReducers (runOps gInit initA destroyA ops coreFresh).featureReducers
          (runOps gInit initA destroyA ops coreFresh).snapshot a) := by
  have h := coreInv_runOps gInit initA destroyA ops coreInv_fresh hops
  have h1 := h.1
  constructor
  · rw [h1]
    split <;> simp
  · intro hi
    have hsc : (runOps gInit initA destroyA ops coreFresh).subCount = 1 := by
      rw [h1, if_pos hi]
    exact ⟨hsc, fun a => applyAction_snapshot_one _ a hsc⟩

/-- Witness for C10 at a concrete run: two registrations and a (failing)
reconfiguration still leave exactly one subscription. -/
theorem state_subscription_at_most_once_witness :
    (∀ op ∈ opsC10, op.WF) ∧
    (runOps "g" initA0 destroyA0 opsC10 coreFresh).initialized = true ∧
    (runOps "g" initA0 destroyA0 opsC10 coreFresh).subCount = 1 := by
  have hops : ∀ op ∈ opsC10, op.WF := by
    intro op hop
    fin_cases hop <;> trivial
  refine ⟨hops, rfl, ?_⟩
  exact ((state_subscription_at_most_once "g" initA0 destroyA0 opsC10 hops).2 rfl).1

/-- C5 counterexample: the claim says the slice-destroyed action is dispatched
first and the registration record removed only afterwards; the code removes the
record first (src/unnamed/part_001 line 104) and dispatches afterwards (line 105),
so the emitted event order is not dispatch-then-remove. -/
theorem removeFeature_not_dispatch_first :
    ¬ ((removeFeature destroyA0 "k" coreC5).2 =
        [RemoveEvent.dispatched (destroyA0 "k"), RemoveEvent.removedRecord "k"]) := by
  intro h
  have h2 : ([RemoveEvent.removedRecord "k", RemoveEvent.dispatched (destroyA0 "k")] :
      List (RemoveEvent String)) =
      [RemoveEvent.dispatched (destroyA0 "k"), RemoveEvent.removedRecord "k"] := h
  simp at h2

/-- C5 amended: unregistering a registered key `k` removes the registration record
first and only then dispatches the slice-destroyed action; the snapshot entry for
`k` is still present when that action is reduced (so meta-reducers observe the
slice's last state as the input of that reduction), and the reduction of that very
action is what removes the snapshot key. -/
theorem removeFeature_order {σ α : Type} [DecidableEq σ] (destroyA : String → α)
    (k : String) (s : Core σ α) (hsc : s.subCount = 1)
    (hR : (s.featureReducers.map Prod.fst).Nodup)
    (hst : (s.snapshot.map Prod.fst).Nodup)
    (hiff : ∀ k2, k2 ∈ s.snapshot.map Prod.fst ↔ k2 ∈ s.featureReducers.map Prod.fst)
    (hk : k ∈ s.featureReducers.map Prod.fst) :
    ((removeFeature destroyA k s).2 =
      [RemoveEvent.removedRecord k, RemoveEvent.dispatched (destroyA k)] ∧
    (∃ v, s.snapshot.lookup k = some v) ∧
    k ∉ (removeFeature destroyA k s).1.snapshot.map Prod.fst) := by
  refine ⟨rfl, lookup_isSome_of_mem ((hiff k).mpr hk), ?_⟩
  have hlt : ((s.featureReducers.filter (fun kr => kr.1 != k)).length <
      s.featureReducers.length) := by
    rw [List.length_filter_lt_length_iff_exists]
    rw [List.mem_map] at hk
    obtain ⟨kr, hkr, hfst⟩ := hk
    refine ⟨kr, hkr, ?_⟩
    rw [hfst]
    simp
  have hlens : s.snapshot.length = s.featureReducers.length := by
    have := length_eq_of_nodup_mem_iff hst hR hiff
    simpa using this
  have hcond : (decide (s.snapshot.length ≠
        (s.featureReducers.filter (fun kr => kr.1 != k)).length) ||
      (s.featureReducers.filter (fun kr => kr.1 != k)).any (fun kr =>
        decide (some (kr.2 (s.snapshot.lookup kr.1) (destroyA k)) ≠
          s.snapshot.lookup kr.1))) = true := by
    rw [Bool.or_eq_true]
    left
    rw [decide_eq_true_eq, hlens]
    exact Nat.ne_of_gt hlt
  have hsnap : (removeFeature destroyA k s).1.snapshot =
      combineReducers (s.featureReducers.filter (fun kr => kr.1 != k))
        s.snapshot (destroyA k) := by
    show (applyAction { s with
        featureReducers := s.featureReducers.filter (fun kr => kr.1 != k) }
        (destroyA k)).snapshot = _
    exact applyAction_snapshot_one _ _ hsc
  have hnext : combineReducers (s.featureReducers.filter (fun kr => kr.1 != k))
      s.snapshot (destroyA k) =
      (s.featureReducers.filter (fun kr => kr.1 != k)).map
        (fun kr => (kr.1, kr.2 (s.snapshot.lookup kr.1) (destroyA k))) := by
    simp only [combineReducers, hcond, if_true]
  rw [hsnap, hnext, combineReducers_next_keys]
  intro hmem
  rw [List.mem_map] at hmem
  obtain ⟨kr, hkr, hfst⟩ := hmem
  rw [List.mem_filter] at hkr
  have := hkr.2
  rw [hfst] at this
  simp at this

/-- Witness for C5 (amended) at the concrete one-slice live store. -/
theorem removeFeature_order_witness :
    coreC5.subCount = 1 ∧
    ((removeFeature destroyA0 "k" coreC5).2 =
      [RemoveEvent.removedRecord "k", RemoveEvent.dispatched (destroyA0 "k")] ∧
    (∃ v, coreC5.snapshot.lookup "k" = some v) ∧
    "k" ∉ (removeFeature destroyA0 "k" coreC5).1.snapshot.map Prod.fst) :=
  ⟨rfl, removeFeature_order destroyA0 "k" coreC5 rfl (by simp [coreC5])
    (by simp [coreC5]) (fun k2 => Iff.rfl) (by simp [coreC5])⟩

/-- C6 counterexample: registering a feature on the fresh store and then calling
the store-core `configureStore` does not succeed — it throws the detected-reducers
configuration error (src/unnamed/part_001 lines 60-64). -/
theorem configureStore_after_feature_fails :
    (configureStoreCore "g" (StoreCfg.mk [] none)
        (addFeature initA0 "k" r0 (coreFresh : Core Nat String)).1).2 =
      Except.error "`configureStore` detected reducers. Did you instantiate FeatureStores before calling `configureStore`?" := by
  rfl

/-- C6 amended: a feature registration performed before `configureStore` lazily
self-initializes the store, so the registration and its internal slice-initialized
dispatch succeed and are not lost (the new slice key is in the snapshot);
registration is also permitted after `configureStore` (it succeeds for any key not
already configured); but a subsequent `configureStore` call does not succeed — it
fails with the detected-reducers configuration error. -/
theorem addFeature_before_configureStore {σ α : Type} [DecidableEq σ] (gInit : α)
    (initA : String → α) (k : String) (r : Rd σ α) (cfg : StoreCfg σ α) :
    ((addFeature initA k r (coreFresh : Core σ α)).2 = Except.ok () ∧
      (addFeature initA k r (coreFresh : Core σ α)).1.initialized = true ∧
      k ∈ (addFeature initA k r (coreFresh : Core σ α)).1.snapshot.map Prod.fst) ∧
    ((configureStoreCore gInit cfg (addFeature initA k r (coreFresh : Core σ α)).1).2 =
      Except.error "`configureStore` detected reducers. Did you instantiate FeatureStores before calling `configureStore`?") ∧
    (k ∉ cfg.reducers.map Prod.fst →
      (addFeature initA k r (configureStoreCore gInit cfg (coreFresh : Core σ α)).1).2 =
        Except.ok ()) := by
  have hadd : addFeature initA k r (coreFresh : Core σ α) =
      (applyAction (⟨true, 1, [(k, r)], []⟩ : Core σ α) (initA k), Except.ok ()) := by
    simp only [addFeature, initStore, coreFresh]
    rw [if_neg (by simp)]
    rw [if_neg (by simp)]
    rfl
  refine ⟨?_, ?_, ?_⟩
  · rw [hadd]
    refine ⟨rfl, rfl, ?_⟩
    have hsnap : (applyAction (⟨true, 1, [(k, r)], []⟩ : Core σ α) (initA k)).snapshot =
        combineReducers [(k, r)] [] (initA k) :=
      applyAction_snapshot_one _ _ rfl
    have hnext : combineReducers ([(k, r)] : ReducerDict σ α) [] (initA k) =
        [(k, r (List.lookup k []) (initA k))] := by
      simp only [combineReducers]
      rw [if_pos (by simp)]
      rfl
    rw [hsnap, hnext]
    simp
  · rw [hadd]
    have hini : initStore (applyAction (⟨true, 1, [(k, r)], []⟩ : Core σ α) (initA k)) =
        applyAction (⟨true, 1, [(k, r)], []⟩ : Core σ α) (initA k) := by
      unfold initStore
      rw [if_pos (show (applyAction (⟨true, 1, [(k, r)], []⟩ : Core σ α)
        (initA k)).initialized = true from rfl)]
    simp only [configureStoreCore, hini]
    rw [if_neg (by simp [applyAction])]
  · intro hk
    have hini : (configureStoreCore gInit cfg (coreFresh : Core σ α)).1.featureReducers =
        cfg.reducers := rfl
    have hini2 : (configureStoreCore gInit cfg (coreFresh : Core σ α)).1.initialized =
        true := rfl
    simp only [addFeature]
    rw [show initStore (configureStoreCore gInit cfg (coreFresh : Core σ α)).1 =
        (configureStoreCore gInit cfg (coreFresh : Core σ α)).1 by
      unfold initStore
      rw [if_pos hini2]]
    rw [hini]
    rw [if_neg hk]

/-- Witness for C6 (amended) at a concrete configuration and key. -/
theorem addFeature_before_configureStore_witness :
    ("k" ∉ (StoreCfg.mk ([] : ReducerDict Nat String) none).reducers.map Prod.fst) ∧
    (addFeature initA0 "k" r0
        (configureStoreCore "g" (StoreCfg.mk [] none) (coreFresh : Core Nat String)).1).2 =
      Except.ok () := by
  have hk : "k" ∉ (StoreCfg.mk ([] : ReducerDict Nat String) none).reducers.map Prod.fst := by
    simp
  exact ⟨hk,
    (addFeature_before_configureStore "g" initA0 "k" r0 (StoreCfg.mk [] none)).2.2 hk⟩

/-- C7: the first `configureStore` call on the fresh process succeeds and returns
the store handle; every subsequent call (any call made while `isStoreConfigured`
is set) fails synchronously with the called-multiple-times configuration error and
leaves the whole store state untouched — it does not reconfigure anything. -/
theorem configureStore_at_most_once {σ α : Type} [DecidableEq σ] (gInit : α)
    (cfg cfg2 : StoreCfg σ α) :
    ((configureStore gInit cfg (topFresh : TopState σ α)).2 = Except.ok () ∧
      (configureStore gInit cfg (topFresh : TopState σ α)).1.isStoreConfigured = true) ∧
    (∀ t : TopState σ α, t.isStoreConfigured = true →
      configureStore gInit cfg2 t =
        (t, Except.error "`configureStore` was called multiple times.")) := by
  refine ⟨⟨rfl, rfl⟩, ?_⟩
  intro t ht
  simp only [configureStore]
  rw [if_pos ht]

/-- Witness for C7 at a concrete already-configured state. -/
theorem configureStore_at_most_once_witness :
    ((⟨coreFresh, true⟩ : TopState Nat String).isStoreConfigured = true) ∧
    configureStore "g" (StoreCfg.mk [] none) (⟨coreFresh, true⟩ : TopState Nat String) =
      ((⟨coreFresh, true⟩ : TopState Nat String),
        Except.error "`configureStore` was called multiple times.") :=
  ⟨rfl, (configureStore_at_most_once "g" (StoreCfg.mk [] none)
    (StoreCfg.mk [] none)).2 (⟨coreFresh, true⟩ : TopState Nat String) rfl⟩

/-- C4 evidence: installing the undo-capture extension followed by the
immutability-enforcement extension (which the priority table sorts after it)
leaves the part_001 `hasUndoExtension` flag false — the assignment on
src/unnamed/part_001 line 132 overwrites it on every later installation — while
the sibling signal-store `addExtension` (store-core.ts lines 132-134) leaves the
flag true as the spec demands. So on the part_001 container a subsequent
`undo(action)` would fail with the undo-unavailable error even though the
undo-capture extension is installed. -/
theorem hasUndoExtension_overwritten :
    runExtensionsMini (sortExtensions [ExtensionId.undo, ExtensionId.immutableState]) = false ∧
    runExtensionsSignal (sortExtensions [ExtensionId.undo, ExtensionId.immutableState]) = true := by
  decide

/-- C8: an unhandled upstream failure in one effect terminates only that effect's
subscription — nothing emitted after the failure is dispatched; every other
registered effect's dispatched actions are exactly what they would have been
without the failure; and the action queue still processes every action dispatched
by all effects, in FIFO order with none dropped. -/
theorem effect_failure_isolated {α : Type} (effects : List (List (EffectEvent α)))
    (i : Nat) (pre post : List (EffectEvent α)) :
    effectOutput (pre ++ EffectEvent.fail :: post) = effectOutput pre ∧
    (∀ j, j ≠ i →
      effectOutput ((effects.set i (pre ++ EffectEvent.fail :: post)).getD j []) =
        effectOutput (effects.getD j [])) ∧
    ((drainSteps (fun _ => ([] : List α))
        (allEffectDispatches (effects.set i (pre ++ EffectEvent.fail :: post))).length
        ⟨allEffectDispatches (effects.set i (pre ++ EffectEvent.fail :: post)), []⟩).processed =
      allEffectDispatches (effects.set i (pre ++ EffectEvent.fail :: post))) := by
  refine ⟨?_, ?_, ?_⟩
  · induction pre with
    | nil => rfl
    | cons e rest ih =>
      cases e with
      | emit a =>
        show a :: effectOutput (rest ++ EffectEvent.fail :: post) = a :: effectOutput rest
        rw [ih]
      | fail => rfl
  · intro j hj
    have hget : (effects.set i (pre ++ EffectEvent.fail :: post))[j]? = effects[j]? :=
      List.getElem?_set_ne (fun he => hj he.symm)
    rw [List.getD_eq_getElem?_getD, List.getD_eq_getElem?_getD, hget]
  · have h3 := drainSteps_spec (fun _ => ([] : List α))
      (allEffectDispatches (effects.set i (pre ++ EffectEvent.fail :: post))) [] []
    rw [List.append_nil] at h3
    rw [h3]
    exact List.nil_append _

/-- Witness for C8 at concrete effects: the failing first effect does not disturb
the second effect's dispatches. -/
theorem effect_failure_isolated_witness :
    ((1 : Nat) ≠ 0) ∧
    effectOutput ((([[EffectEvent.emit 7], [EffectEvent.emit 8]] :
          List (List (EffectEvent Nat))).set 0
        ([EffectEvent.emit 3] ++ EffectEvent.fail :: [EffectEvent.emit 4])).getD 1 []) =
      effectOutput (([[EffectEvent.emit 7], [EffectEvent.emit 8]] :
          List (List (EffectEvent Nat))).getD 1 []) :=
  ⟨by decide,
    (effect_failure_isolated [[EffectEvent.emit 7], [EffectEvent.emit 8]] 0
      [EffectEvent.emit 3] [EffectEvent.emit 4]).2.1 1 (by decide)⟩

/-- C9: selector memoization. Two consecutive invocations with the same top-level
state reference return the cached result with neither the combiner nor any
upstream source re-invoked; when the state reference differs, the combiner is
re-invoked exactly when at least one source selector's output differs (by
reference) from the cached inputs, and otherwise the cached result is returned;
and after any invocation the node caches exactly one prior (inputs, output) pair —
the last one. -/
theorem createSelector_memoized {St A R : Type} [DecidableEq St] [DecidableEq A]
    (sources : List (St → A)) (combiner : List A → R)
    (cache : Option (St × List A × R)) (st : St) :
    (invokeSelector sources combiner (invokeSelector sources combiner cache st).cache st =
      ⟨(invokeSelector sources combiner cache st).result,
        (invokeSelector sources combiner cache st).cache, 0, 0⟩) ∧
    (∀ s0 args0 r0, cache = some (s0, args0, r0) → st ≠ s0 →
      (((invokeSelector sources combiner cache st).combinerCalls = 1 ↔
          sources.map (fun src => src st) ≠ args0) ∧
        (sources.map (fun src => src st) = args0 →
          invokeSelector sources combiner cache st =
            ⟨r0, some (st, args0, r0), 0, sources.length⟩))) ∧
    (∃ args, (invokeSelector sources combiner cache st).cache =
      some (st, args, (invokeSelector sources combiner cache st).result)) := by
  rcases cache with _ | ⟨s0, args0, r0⟩
  · have he : invokeSelector sources combiner none st =
        ⟨combiner (sources.map (fun src => src st)),
          some (st, sources.map (fun src => src st),
            combiner (sources.map (fun src => src st))), 1, sources.length⟩ := rfl
    refine ⟨?_, ?_, ?_⟩
    · rw [he]
      show invokeSelector sources combiner
          (some (st, sources.map (fun src => src st),
            combiner (sources.map (fun src => src st)))) st = _
      simp only [invokeSelector]
      simp only [if_true]
    · intro s0 args0 r0 hc
      exact absurd hc (by simp)
    · rw [he]
      exact ⟨sources.map (fun src => src st), rfl⟩
  · by_cases hst : st = s0
    · subst hst
      have he : invokeSelector sources combiner (some (st, args0, r0)) st =
          ⟨r0, some (st, args0, r0), 0, 0⟩ := by
        simp only [invokeSelector]
        simp only [if_true]
      refine ⟨?_, ?_, ?_⟩
      · rw [he]
        exact he
      · intro s0' args0' r0' hc hne
        rw [Option.some_inj] at hc
        have : s0' = st := (congrArg (fun p => p.1) hc).symm
        exact absurd this.symm hne
      · rw [he]
        exact ⟨args0, rfl⟩
    · by_cases hargs : sources.map (fun src => src st) = args0
      · have he : invokeSelector sources combiner (some (s0, args0, r0)) st =
            ⟨r0, some (st, sources.map (fun src => src st), r0), 0, sources.length⟩ := by
          simp only [invokeSelector]
          rw [if_neg hst, if_pos hargs]
        refine ⟨?_, ?_, ?_⟩
        · rw [he]
          show invokeSelector sources combiner
              (some (st, sources.map (fun src => src st), r0)) st = _
          simp only [invokeSelector]
          simp only [if_true]
        · intro s0' args0' r0' hc hne
          rw [Option.some_inj] at hc
          have h1 : args0' = args0 := by
            have := congrArg (fun p => p.2.1) hc
            exact this.symm
          have h2 : r0' = r0 := by
            have := congrArg (fun p => p.2.2) hc
            exact this.symm
          subst h1
          subst h2
          constructor
          · rw [he]
            constructor
            · intro h01
              exact absurd h01 (by simp)
            · intro hne2
              exact absurd hargs hne2
          · intro _
            rw [he, hargs]
        · rw [he]
          exact ⟨sources.map (fun src => src st), rfl⟩
      · have he : invokeSelector sources combiner (some (s0, args0, r0)) st =
            ⟨combiner (sources.map (fun src => src st)),
              some (st, sources.map (fun src => src st),
                combiner (sources.map (fun src => src st))), 1, sources.length⟩ := by
          simp only [invokeSelector]
          rw [if_neg hst, if_neg hargs]
        refine ⟨?_, ?_, ?_⟩
        · rw [he]
          show invokeSelector sources combiner
              (some (st, sources.map (fun src => src st),
                combiner (sources.map (fun src => src st)))) st = _
          simp only [invokeSelector]
          simp only [if_true]
        · intro s0' args0' r0' hc hne
          rw [Option.some_inj] at hc
          have h1 : args0' = args0 := by
            have := congrArg (fun p => p.2.1) hc
            exact this.symm
          subst h1
          constructor
          · rw [he]
            constructor
            · intro _
              exact hargs
            · intro _
              rfl
          · intro heq
            exact absurd heq hargs
        · rw [he]
          exact ⟨sources.map (fun src => src st), rfl⟩

/-- Witness for C9 at a concrete node: cached state 0 with cached input [0];
invoking at state 1 re-invokes the combiner because the source output 1 differs
from the cached input 0. -/
theorem createSelector_memoized_witness :
    ((some ((0 : Nat), [(0 : Nat)], (0 : Nat)) : Option (Nat × List Nat × Nat)) =
        some (0, [0], 0) ∧ (1 : Nat) ≠ 0) ∧
    (invokeSelector [fun n => n] (fun l => l.headD 0)
        (some (0, [0], 0)) 1).combinerCalls = 1 := by
  refine ⟨⟨rfl, by decide⟩, ?_⟩
  have h := (createSelector_memoized [fun (n : Nat) => n] (fun l => l.headD 0)
    (some (0, [0], 0)) 1).2.1 0 [0] 0 rfl (by decide)
  exact h.1.mpr (by decide)

end MiniRxStore
